import Mathlib

/-!
# Verification of the FlightPlanner HierarchicalPlanner core

A shallow embedding of
`FlightPlanner/HierarchicalPlanner/HierarchicalPlanner.cpp` (the schedule
search, path reconstruction, interpolation and endpoint-selection logic),
with theorems settling the specification claims.

Modelling conventions:
* `qreal` (C++ `double`) arithmetic is modelled by exact rationals `ℚ`.
* External library calls (Qt geometry, `<cmath>` trigonometry, the
  `Conversions` geodesy helpers and pluggable intermediate planners) are
  abstracted as parameters bundled in structures (`Geo`, `PlannerEnv`):
  the claims only concern the control flow and arithmetic of the
  hierarchical planner itself.
* Fallible operations (out-of-range `QList` indexing, interpolation
  failure) return `Option`.
-/

namespace FlightPlanner

/-- A geographic position `(longitude, latitude)` in degrees,
mirroring the `Position` value class. -/
abbrev Position := ℚ × ℚ

/-- Default-constructed `Position()` (used for uninitialised locals). -/
def defaultPosition : Position := (0, 0)

/-- `const qreal EVERY_X_METERS = 30.0;` -/
def EVERY_X_METERS : ℚ := 30

/-- `const qreal AIRSPEED = 14.0;` (meters per second) -/
def AIRSPEED : ℚ := 14

/-- `const qreal TIMESLICE = 15.0;` (seconds) -/
def TIMESLICE : ℚ := 15

/-- Modelled from the spec: a `ProgressState` (the C++ `QVectorND`, whose
source is not part of the analysed tree) is a vector of per-task
"time completed" reals; we use a list of rationals. -/
abbrev ProgressState := List ℚ

/-- Modelled from the spec: componentwise subtraction of `QVectorND`
(`endState - state`). -/
def vsub (a b : ProgressState) : ProgressState :=
  List.zipWith (fun x y => x - y) a b

/-- Modelled from the spec: `QVectorND::manhattanDistance()`,
the sum of absolute values of the components. -/
def manhattanDistance (v : ProgressState) : ℚ :=
  (v.map (fun x => |x|)).sum

/-- The move generation of `_buildSchedule` (line 289-290):
`QVectorND newState = state; newState[i] = qMin(taskTimes[i], newState[i] + TIMESLICE);`. -/
def genState (taskTimes : List ℚ) (s : ProgressState) (i : ℕ) : ProgressState :=
  s.set i (min (taskTimes.getD i 0) (s.getD i 0 + TIMESLICE))

/-- The duration estimate used throughout `_buildSchedule`
(lines 235, 307, 337): `list.length() * EVERY_X_METERS / AIRSPEED`. -/
def flightDuration (l : List Position) : ℚ :=
  (l.length : ℚ) * EVERY_X_METERS / AIRSPEED

/-- The planner's per-run tables and pluggable collaborators.  Tasks are
identified by natural-number ids; `tasks` is the `_tasks` list built by
`doReset`, and the remaining fields are the lookup tables
(`_taskSubFlights`, `_tasks2areas`, `_startTransitionSubFlights`,
`_areaStartOrientations`) together with the pluggable
`_generateTransitionFlight` collaborator (the phony intermediate
planner, outside the analysed tree). -/
structure PlannerEnv where
  tasks : List ℕ
  taskSubFlights : ℕ → List Position
  tasks2areas : ℕ → ℕ
  startTransitionSubFlights : ℕ → List Position
  areaStartOrientations : ℕ → ℚ
  generateTransitionFlight : Position → ℚ → Position → ℚ → List Position

/-- `_buildSchedule` lines 229-237: the per-task required times
`taskTimes`, one entry per task, each
`subFlight.length() * EVERY_X_METERS / AIRSPEED`. -/
def taskTimes (env : PlannerEnv) : List ℚ :=
  env.tasks.map (fun t => flightDuration (env.taskSubFlights t))

/-- Abstracted external geometry collaborators: the `Conversions`
geodesy helpers, `QVector2D::normalize`, `<cmath>` trigonometry and
`QPolygonF::containsPoint`.  None of them is part of the analysed
tree; the claims concern only how the planner combines their results. -/
structure Geo where
  degreesLonPerMeter : ℚ → ℚ
  degreesLatPerMeter : ℚ → ℚ
  normalize : ℚ × ℚ → ℚ × ℚ
  atan2 : ℚ → ℚ → ℚ
  lla2xyz : Position → ℚ × ℚ × ℚ
  cosF : ℚ → ℚ
  sinF : ℚ → ℚ

/-- The body of `_interpolatePath`'s segment computation
(lines 420-432), at 1-based segment index `i`: position/orientation a
ratio of the way along segment `[path[i-1], path[i]]`.  In the source,
`distanceSoFar` at step `i` is `i · EVERY_X_METERS`, so
`timeSoFar = i · EVERY_X_METERS / AIRSPEED`. -/
def segmentCompute (geo : Geo) (path : List Position) (goalTime : ℚ) (i : ℕ) :
    Position × ℚ :=
  let pos := path.getD i defaultPosition
  let lastPos := path.getD (i - 1) defaultPosition
  let lonPerMeter := geo.degreesLonPerMeter pos.2
  let latPerMeter := geo.degreesLatPerMeter pos.2
  let timeSoFar := (i : ℚ) * EVERY_X_METERS / AIRSPEED
  let lastTime := timeSoFar - EVERY_X_METERS / AIRSPEED
  let ratio := (goalTime - lastTime) / (timeSoFar - lastTime)
  let dirVecMeters := ((pos.1 - lastPos.1) / lonPerMeter,
                       (pos.2 - lastPos.2) / latPerMeter)
  let distToGo := EVERY_X_METERS * ratio
  let n := geo.normalize dirVecMeters
  ((lastPos.1 + distToGo * n.1 * lonPerMeter,
    lastPos.2 + distToGo * n.2 * latPerMeter),
   geo.atan2 n.2 n.1)

/-- The scan of `_interpolatePath`'s `for` loop (lines 407-418): starting
from index `i`, the first index whose cumulative time reaches `goalTime`,
stopping in any case at the last index `size - 1`.  Fuelled; the caller
passes fuel `size`, which always suffices. -/
def interpGo (goalTime : ℚ) (size : ℕ) : ℕ → ℕ → ℕ
  | 0, i => i
  | fuel + 1, i =>
    if (i : ℚ) * EVERY_X_METERS / AIRSPEED ≥ goalTime ∨ i = size - 1 then i
    else interpGo goalTime size fuel (i + 1)

/-- `_interpolatePath` (lines 374-443) with the two output pointers
assumed valid: `none` models a `false` return before any write. -/
def interpolatePath (geo : Geo) (path : List Position)
    (startingOrientation goalTime : ℚ) : Option (Position × ℚ) :=
  if goalTime < 0 then none
  else if path.isEmpty then none
  else if path.length = 1 then some (path.getD 0 defaultPosition, startingOrientation)
  else some (segmentCompute geo path goalTime
              (interpGo goalTime path.length path.length 1))

/-- `_interpolatePath` including its output-pointer handling: the flags
say whether `outPosition` / `outOrientation` are non-null, and
`oldPos`, `oldOrient` are the values the caller's variables held before
the call; the returned pair is what those variables hold afterwards. -/
def interpolatePathC (geo : Geo) (outPositionOk outOrientationOk : Bool)
    (path : List Position) (startingOrientation goalTime : ℚ)
    (oldPos : Position) (oldOrient : ℚ) : Bool × Position × ℚ :=
  if outPositionOk = false ∨ outOrientationOk = false then (false, oldPos, oldOrient)
  else
    match interpolatePath geo path startingOrientation goalTime with
    | none => (false, oldPos, oldOrient)
    | some (p, o) => (true, p, o)

/-- C++ truncation of a `qreal` to `int` (rounds toward zero; equal to
the floor for the non-negative values arising here). -/
def qrealToInt (q : ℚ) : ℤ :=
  if q < 0 then -⌊-q⌋ else ⌊q⌋

/-- `QList::operator[]` as a fallible lookup (out-of-range access is
undefined behaviour in the source; we surface it as `none`). -/
def qlistAt (l : List α) (i : ℤ) : Option α :=
  if h : 0 ≤ i ∧ i.toNat < l.length then some (l.get ⟨i.toNat, h.2⟩) else none

/-- The index list of a C `for (int i = a; i < b; i++)` loop. -/
def intRange (a b : ℤ) : List ℤ :=
  (List.range (b - a).toNat).map (fun (k : ℕ) => a + (k : ℤ))

/-- `QHash::value(key)` / `QHash::value(key, default)`: association-list
lookup returning a default when the key is absent. -/
def qhashValue [DecidableEq κ] (m : List (κ × α)) (k : κ) (d : α) : α :=
  ((m.find? (fun e => e.1 = k)).map (fun e => e.2)).getD d

/-- `QHash::contains`. -/
def qhashContains [DecidableEq κ] (m : List (κ × α)) (k : κ) : Bool :=
  (m.find? (fun e => e.1 = k)).isSome

/-- `QHash::insert` (replacing semantics: the new binding shadows any
older one under lookup). -/
def qhashInsert [DecidableEq κ] (m : List (κ × α)) (k : κ) (v : α) :
    List (κ × α) :=
  (k, v) :: m

/-- Sequentially read the given indices out of a list, failing if any
is out of range (the appending loop body `toRet.append(path[i])`). -/
def collectAt (l : List Position) : List ℤ → Option (List Position)
  | [] => some []
  | i :: is =>
    match qlistAt l i, collectAt l is with
    | some x, some xs => some (x :: xs)
    | _, _ => none

/-- `_getPathPortion` (lines 472-487): truncate the two times to int
indices (`startingIndex`, `endingIndex`) and collect `path[i]` for `i`
in `[startingIndex, endingIndex)`. -/
def getPathPortion (path : List Position)
    (portionStartTime portionEndTime : ℚ) : Option (List Position) :=
  collectAt path
    (intRange (qrealToInt (portionStartTime * AIRSPEED / EVERY_X_METERS))
      (qrealToInt (portionEndTime * AIRSPEED / EVERY_X_METERS)))

/-- The path-reconstruction loop of `_buildSchedule` (lines 345-368),
walking the schedule with `prevInterval` and appending, per interval:
the start transition when the previous interval is the start state, the
memoized context-switch transition when the last task changes, and then
the relevant portion of the task's sub-flight. -/
def reconstructPath (env : PlannerEnv)
    (lastTasks : List (ProgressState × ℕ))
    (transitionFlights : List (ProgressState × List Position))
    (startState : ProgressState) :
    ProgressState → List ProgressState → Option (List Position)
  | _, [] => some []
  | prevInterval, interval :: rest =>
    -- taskIndex := lastTasks.value(interval); task := _tasks.value(taskIndex);
    -- area := _tasks2areas.value(task)
    match getPathPortion
        (env.taskSubFlights (env.tasks.getD (qhashValue lastTasks interval 0) 0))
        (prevInterval.getD (qhashValue lastTasks interval 0) 0)
        (interval.getD (qhashValue lastTasks interval 0) 0) with
    | none => none
    | some portion =>
      match reconstructPath env lastTasks transitionFlights startState
          interval rest with
      | none => none
      | some tail =>
        some ((if prevInterval = startState then
                env.startTransitionSubFlights
                  (env.tasks2areas
                    (env.tasks.getD (qhashValue lastTasks interval 0) 0))
              else if qhashValue lastTasks prevInterval 0 ≠
                  qhashValue lastTasks interval 0 then
                qhashValue transitionFlights interval []
              else []) ++ portion ++ tail)

/-- State of `_buildSchedule`'s search: the cost-ordered worklist
(`QMultiMap<qreal, QVectorND>`), the closed set, the `parents`,
`lastTasks` and `transitionFlights` hashes, plus a ghost log of the
states popped (expanded) so far, in order. -/
structure SearchConfig where
  worklist : List (ℚ × ProgressState)
  closedSet : List ProgressState
  parents : List (ProgressState × ProgressState)
  lastTasks : List (ProgressState × ℕ)
  transitionFlights : List (ProgressState × List Position)
  popLog : List ProgressState

/-- `QMultiMap::insert`: keep the list sorted ascending by key; among
equal keys the most recently inserted comes first (Qt iteration
order). -/
def worklistInsert (k : ℚ) (v : ProgressState) :
    List (ℚ × ProgressState) → List (ℚ × ProgressState)
  | [] => [(k, v)]
  | e :: rest => if k ≤ e.1 then (k, v) :: e :: rest else e :: worklistInsert k v rest

/-- The states held in a worklist, in iteration order. -/
def statesOf (w : List (ℚ × ProgressState)) : List ProgressState :=
  w.map Prod.snd

/-- The cost penalty of a move (lines 306-339), computed after
`lastTasks.insert(newState, i)`; returns the penalty together with the
transition flight to memoize in the context-switch case:
* no recorded last task for `state` (the origin): duration of the start
  transition of task `i`'s area;
* same last task: zero;
* context switch: interpolate the current position/orientation along
  the previous task's sub-flight at `state[indexOf(prevTask)]` and the
  destination along the next task's sub-flight at `state[i]`, plan an
  intermediate flight, and use its duration. -/
def switchPenalty (env : PlannerEnv) (geo : Geo)
    (lastTasks' : List (ProgressState × ℕ)) (state newState : ProgressState)
    (i : ℕ) : ℚ × Option (List Position) :=
  if ¬ qhashContains lastTasks' state then
    (flightDuration
      (env.startTransitionSubFlights (env.tasks2areas (env.tasks.getD i 0))),
     none)
  else if qhashValue lastTasks' state 0 = i then (0, none)
  else
    -- prevTask := _tasks.value(lastTasks.value(state));
    -- nextTask := _tasks.value(lastTasks.value(newState))
    let prevTask := env.tasks.getD (qhashValue lastTasks' state 0) 0
    let nextTask := env.tasks.getD (qhashValue lastTasks' newState 0) 0
    let s1 := interpolatePathC geo true true (env.taskSubFlights prevTask)
                (env.areaStartOrientations (env.tasks2areas prevTask))
                (state.getD (env.tasks.indexOf prevTask) 0) defaultPosition 0
    let s2 := interpolatePathC geo true true (env.taskSubFlights nextTask)
                (env.areaStartOrientations (env.tasks2areas nextTask))
                (state.getD i 0) defaultPosition 0
    let intermed := env.generateTransitionFlight s1.2.1 s1.2.2 s2.2.1 s2.2.2
    (flightDuration intermed, some intermed)

/-- The context-switch transition as the specification words it (for
comparison with `switchPenalty`): interpolate the current
position/orientation along the previous task `j`'s sub-flight at time
`s_j` and the destination along task `i`'s sub-flight at time `s_i`,
then plan an intermediate flight between them. -/
def specContextSwitchFlight (env : PlannerEnv) (geo : Geo)
    (state : ProgressState) (j i : ℕ) : List Position :=
  let prevTask := env.tasks.getD j 0
  let nextTask := env.tasks.getD i 0
  let s1 := interpolatePathC geo true true (env.taskSubFlights prevTask)
              (env.areaStartOrientations (env.tasks2areas prevTask))
              (state.getD j 0) defaultPosition 0
  let s2 := interpolatePathC geo true true (env.taskSubFlights nextTask)
              (env.areaStartOrientations (env.tasks2areas nextTask))
              (state.getD i 0) defaultPosition 0
  env.generateTransitionFlight s1.2.1 s1.2.2 s2.2.1 s2.2.2

/-- One iteration of the transition-generation loop (lines 287-342) for
axis `i` of the popped `state`: build `newState`, skip it when closed,
otherwise close it, record parent and last task, compute the cost
`(endState - state).manhattanDistance()` plus the switch penalty,
memoize the transition flight if any, and enqueue. -/
def genOne (env : PlannerEnv) (geo : Geo) (taskTimes : List ℚ)
    (endState state : ProgressState) (cfg : SearchConfig) (i : ℕ) :
    SearchConfig :=
  let newState := genState taskTimes state i
  if newState ∈ cfg.closedSet then cfg
  else
    let lastTasks' := qhashInsert cfg.lastTasks newState i
    let pen := switchPenalty env geo lastTasks' state newState i
    { worklist := worklistInsert
        (manhattanDistance (vsub endState state) + pen.1) newState cfg.worklist,
      closedSet := newState :: cfg.closedSet,
      parents := qhashInsert cfg.parents newState state,
      lastTasks := lastTasks',
      transitionFlights :=
        match pen.2 with
        | none => cfg.transitionFlights
        | some tr => qhashInsert cfg.transitionFlights newState tr,
      popLog := cfg.popLog }

/-- The whole transition-generation loop for a popped state. -/
def generateTransitions (env : PlannerEnv) (geo : Geo) (taskTimes : List ℚ)
    (endState state : ProgressState) (cfg : SearchConfig) : SearchConfig :=
  (List.range state.length).foldl (genOne env geo taskTimes endState state) cfg

/-- The traceback loop (lines 274-282): prepend the current state; stop
as soon as it has no parent.  Fuelled; `parents.length + 1` always
suffices for the acyclic parent maps the search builds. -/
def traceback (parents : List (ProgressState × ProgressState)) :
    ℕ → ProgressState → List ProgressState → List ProgressState
  | 0, current, acc => current :: acc
  | fuel + 1, current, acc =>
    if qhashContains parents current then
      traceback parents fuel (qhashValue parents current []) (current :: acc)
    else current :: acc

/-- Result of the scheduling `while` loop (lines 260-343). -/
inductive SearchResult where
  | found (schedule : List ProgressState) (cfg : SearchConfig)
  | exhausted (cfg : SearchConfig)
  | outOfFuel (cfg : SearchConfig)

/-- The scheduling loop: pop the cheapest worklist entry, insert it into
the closed set, stop with a traceback when it is the end state,
otherwise generate its transitions.  `exhausted` is the loop falling
through with an empty worklist (goal never popped). -/
def searchLoop (env : PlannerEnv) (geo : Geo) (taskTimes : List ℚ)
    (endState : ProgressState) : ℕ → SearchConfig → SearchResult
  | 0, cfg => .outOfFuel cfg
  | fuel + 1, cfg =>
    match cfg.worklist with
    | [] => .exhausted cfg
    | (_, state) :: rest =>
      let cfg' : SearchConfig :=
        { cfg with worklist := rest, closedSet := state :: cfg.closedSet,
                   popLog := cfg.popLog ++ [state] }
      if state = endState then
        .found (traceback cfg'.parents (cfg'.parents.length + 1) state []) cfg'
      else
        searchLoop env geo taskTimes endState fuel
          (generateTransitions env geo taskTimes endState state cfg')

/-- The empty initial configuration with `worklist.insert(0, startState)`
(line 256). -/
def initialConfig (startState : ProgressState) : SearchConfig :=
  { worklist := [(0, startState)], closedSet := [], parents := [],
    lastTasks := [], transitionFlights := [], popLog := [] }

/-- `_buildSchedule` from an arbitrary search configuration: run the
loop, then `schedule[0]` / `schedule.removeFirst()` and the
reconstruction walk.  `none` models the iteration failing before
`setBestFlightSoFar` is reached (out-of-range `schedule[0]` access on
an empty schedule, an out-of-range sub-flight index, or fuel). -/
def buildScheduleFrom (env : PlannerEnv) (geo : Geo) (fuel : ℕ)
    (startState : ProgressState) (cfg : SearchConfig) : Option (List Position) :=
  match searchLoop env geo (taskTimes env) (taskTimes env) fuel cfg with
  | .found schedule cfgEnd =>
    match schedule with
    | [] => none
    | first :: rest =>
      reconstructPath env cfgEnd.lastTasks cfgEnd.transitionFlights
        startState first rest
  | .exhausted _ => none
  | .outOfFuel _ => none

/-- `_buildSchedule` (lines 226-371): search from the all-zeros start
state toward `endState = taskTimes` and reconstruct the flight. -/
def buildScheduleResult (env : PlannerEnv) (geo : Geo) (fuel : ℕ) :
    Option (List Position) :=
  buildScheduleFrom env geo fuel (List.replicate env.tasks.length 0)
    (initialConfig (List.replicate env.tasks.length 0))

/-- A progress state within bounds: one coordinate per task, each in
`[0, T_i]`. -/
def boundedState (T : List ℚ) (s : ProgressState) : Prop :=
  s.length = T.length ∧
    ∀ i < T.length, 0 ≤ s.getD i 0 ∧ s.getD i 0 ≤ T.getD i 0

/-- All task times are non-negative. -/
def nonnegTimes (T : List ℚ) : Prop := ∀ t ∈ T, 0 ≤ t

/-- The search invariant maintained by `_buildSchedule`'s loop: the pop
log and worklist hold pairwise distinct states; every popped state is
closed; every worklist state is closed (or is the start state, which is
enqueued before being closed); worklist states are within bounds; and
every `parents` edge strictly increases the coordinate sum. -/
def SearchInv (T : List ℚ) (cfg : SearchConfig) : Prop :=
  (cfg.popLog ++ statesOf cfg.worklist).Nodup ∧
  (∀ s ∈ cfg.popLog, s ∈ cfg.closedSet) ∧
  (∀ s ∈ statesOf cfg.worklist,
    s ∈ cfg.closedSet ∨ s = List.replicate T.length 0) ∧
  (∀ s ∈ statesOf cfg.worklist, boundedState T s) ∧
  (∀ p ∈ cfg.parents, p.2.sum < p.1.sum)

/-- Soundness of a finished search: no state was expanded (popped)
twice, every popped state is in the closed set, and a found schedule
repeats no state. -/
def searchResultSound : SearchResult → Prop
  | .found schedule cfg =>
    cfg.popLog.Nodup ∧ (∀ s ∈ cfg.popLog, s ∈ cfg.closedSet) ∧ schedule.Nodup
  | .exhausted cfg =>
    cfg.popLog.Nodup ∧ (∀ s ∈ cfg.popLog, s ∈ cfg.closedSet)
  | .outOfFuel cfg =>
    cfg.popLog.Nodup ∧ (∀ s ∈ cfg.popLog, s ∈ cfg.closedSet)

/-- `QPointF::manhattanLength()`. -/
def manhattanLength (p : ℚ × ℚ) : ℚ := |p.1| + |p.2|

/-- `std::numeric_limits<qreal>::min()`, the smallest positive
normalised double (`2^-1022`), the initial value of `mostDistance`. -/
def DBL_MIN_Q : ℚ := 1 / 2 ^ 1022

/-- The data `_buildStartAndEndPositions` reads from a task area: its
bounding rectangle (centre, width, height) and the Qt point-in-polygon
test (`geoPoly().containsPoint(·, Qt::OddEvenFill)`, external). -/
structure AreaData where
  centre : ℚ × ℚ
  width : ℚ
  height : ℚ
  contains : (ℚ × ℚ) → Bool

/-- `stepSize = qMax(boundingRect.width() / divisions, boundingRect.height() / divisions)`
with `divisions = 100` (lines 123-124). -/
def stepSizeOf (area : AreaData) : ℚ :=
  max (area.width / 100) (area.height / 100)

/-- The direction vector of lines 125-126, including the source's
`angleDeg * 180.0 / 3.14159265` scaling, applied to the abstracted
library cosine/sine. -/
def dirVec (geo : Geo) (angleDeg : ℕ) : ℚ × ℚ :=
  (geo.cosF ((angleDeg : ℚ) * 180 / 3.14159265),
   geo.sinF ((angleDeg : ℚ) * 180 / 3.14159265))

/-- The trial point at walk count `c` (lines 133-136): the centre
offset by `sign · dir · stepSize · count`, `sign = 1` for the positive
walk and `-1` for the negative one. -/
def trialPoint (centre dir : ℚ × ℚ) (step sign : ℚ) (c : ℕ) : ℚ × ℚ :=
  (centre.1 + sign * dir.1 * step * (c : ℚ),
   centre.2 + sign * dir.2 * step * (c : ℚ))

/-- One direction of the walk loop (lines 131-152): increment the count
until the trial point leaves the polygon and return that first exit
point.  Fuelled: `none` models the source loop never terminating. -/
def walkExit (contains : (ℚ × ℚ) → Bool) (centre dir : ℚ × ℚ)
    (step sign : ℚ) : ℕ → ℕ → Option (ℚ × ℚ)
  | 0, _ => none
  | fuel + 1, c =>
    if ¬ contains (trialPoint centre dir step sign c) then
      some (trialPoint centre dir step sign c)
    else walkExit contains centre dir step sign fuel (c + 1)

/-- Squared 3D earth-frame distance
(`(lla2xyz(pos) - lla2xyz(neg)).lengthSquared()`, lines 154-156). -/
def distSq3 (geo : Geo) (p q : ℚ × ℚ) : ℚ :=
  (((geo.lla2xyz p).1 - (geo.lla2xyz q).1) ^ 2 +
   ((geo.lla2xyz p).2.1 - (geo.lla2xyz q).2.1) ^ 2 +
   ((geo.lla2xyz p).2.2 - (geo.lla2xyz q).2.2) ^ 2)

/-- The angles evaluated by the selector:
`for (int angleDeg = 0; angleDeg < 179; angleDeg++)` (line 118). -/
@[irreducible] def angleCandidates : List ℕ := List.range 179

/-- The chord found at one angle: the two first-exit points of the
positive and negative walks. -/
def chordFor (geo : Geo) (area : AreaData) (angleDeg fuel : ℕ) :
    Option ((ℚ × ℚ) × (ℚ × ℚ)) :=
  match walkExit area.contains area.centre (dirVec geo angleDeg)
          (stepSizeOf area) 1 fuel 0,
        walkExit area.contains area.centre (dirVec geo angleDeg)
          (stepSizeOf area) (-1) fuel 0 with
  | some pos, some neg => some (pos, neg)
  | _, _ => none

/-- The body of the angle loop (lines 118-163): keep the best
`(mostDistance, bestPoint1, bestPoint2)` triple under the strict
`distance > mostDistance` test. -/
def bestChordStep (geo : Geo) (area : AreaData) (fuel : ℕ) :
    Option (ℚ × (ℚ × ℚ) × (ℚ × ℚ)) → ℕ → Option (ℚ × (ℚ × ℚ) × (ℚ × ℚ))
  | some acc, angleDeg =>
    match chordFor geo area angleDeg fuel with
    | some (pos, neg) =>
      if distSq3 geo pos neg > acc.1 then some (distSq3 geo pos neg, pos, neg)
      else some acc
    | none => none
  | none, _ => none

/-- The full angle loop, started from
`mostDistance = DBL_MIN, bestPoint1 = bestPoint2 = (0,0)`. -/
def bestChord (geo : Geo) (area : AreaData) (fuel : ℕ) :
    Option (ℚ × (ℚ × ℚ) × (ℚ × ℚ)) :=
  angleCandidates.foldl (bestChordStep geo area fuel)
    (some (DBL_MIN_Q, (0, 0), (0, 0)))

/-- The per-area selection (lines 165-182): start is `bestPoint1` when
it is strictly closer (Manhattan) to the accumulated average than
`bestPoint2`, else `bestPoint2`; the orientation is
`atan2(end.lat - start.lat, end.lon - start.lon)`. -/
def selectStartAndEnd (geo : Geo) (area : AreaData) (avg : ℚ × ℚ)
    (fuel : ℕ) : Option ((ℚ × ℚ) × (ℚ × ℚ) × ℚ) :=
  match bestChord geo area fuel with
  | none => none
  | some (_, b1, b2) =>
    if manhattanLength (b1.1 - avg.1, b1.2 - avg.2) <
        manhattanLength (b2.1 - avg.1, b2.2 - avg.2) then
      some (b1, b2, geo.atan2 (b2.2 - b1.2) (b2.1 - b1.1))
    else
      some (b2, b1, geo.atan2 (b1.2 - b2.2) (b1.1 - b2.1))

/-- The per-area loop of `_buildStartAndEndPositions` (lines 109-183),
threading the `avgLonLat` accumulator, to which each area's centre is
added *again* before the comparison (line 113). -/
def buildLoop (geo : Geo) (fuel : ℕ) :
    (ℚ × ℚ) → List AreaData → Option (List ((ℚ × ℚ) × (ℚ × ℚ) × ℚ))
  | _, [] => some []
  | avg, a :: rest =>
    match selectStartAndEnd geo a
        (avg.1 + a.centre.1, avg.2 + a.centre.2) fuel with
    | none => none
    | some r =>
      match buildLoop geo fuel (avg.1 + a.centre.1, avg.2 + a.centre.2) rest with
      | none => none
      | some rs => some (r :: rs)

/-- `_buildStartAndEndPositions` (lines 95-183): seed the accumulator
with the mean of the per-task area centres (lines 99-103), then run the
per-area loop. -/
def buildStartAndEndPositions (geo : Geo) (areas : List AreaData)
    (fuel : ℕ) : Option (List ((ℚ × ℚ) × (ℚ × ℚ) × ℚ)) :=
  buildLoop geo fuel
    (if 0 < areas.length then
      ((areas.map (fun a => a.centre.1)).sum / (areas.length : ℚ),
       (areas.map (fun a => a.centre.2)).sum / (areas.length : ℚ))
    else
      ((areas.map (fun a => a.centre.1)).sum,
       (areas.map (fun a => a.centre.2)).sum))
    areas

/-- A concrete area for evaluating the endpoint selector: bounding box
centred at `(10, 0)` of width and height `2` (walk step `1/50`), whose
region consists of the centre and the first trial point of the
positive walk — so the positive walk exits at count 2 and the negative
walk at count 1. -/
def areaX : AreaData where
  centre := (10, 0)
  width := 2
  height := 2
  contains := fun p =>
    if p = ((10 : ℚ), (0 : ℚ)) ∨ p = ((501 / 50 : ℚ), (0 : ℚ)) then true
    else false

/-- The effect of one planning iteration on `bestFlightSoFar`
(published only by the final `setBestFlightSoFar(path)` call). -/
def bestFlightAfterIteration (env : PlannerEnv) (geo : Geo) (fuel : ℕ)
    (startState : ProgressState) (cfg : SearchConfig)
    (bestFlightSoFar : List Position) : List Position :=
  match buildScheduleFrom env geo fuel startState cfg with
  | none => bestFlightSoFar
  | some path => path

/-- Environment exhibiting the duration formula actually used by the
code: a single task whose sub-flight has exactly two waypoints. -/
def twoPointEnv : PlannerEnv where
  tasks := [0]
  taskSubFlights := fun _ => [(0, 0), (1, 1)]
  tasks2areas := fun _ => 0
  startTransitionSubFlights := fun _ => []
  areaStartOrientations := fun _ => 0
  generateTransitionFlight := fun _ _ _ _ => []
/-- A concrete instantiation of the abstract geometry collaborators,
used to evaluate the embedding on closed inputs. -/
def geo0 : Geo where
  degreesLonPerMeter := fun _ => 1
  degreesLatPerMeter := fun _ => 1
  normalize := fun v => v
  atan2 := fun y x => y + x
  lla2xyz := fun p => (p.1, p.2, 0)
  cosF := fun _ => 1
  sinF := fun _ => 0
/-- Environment for evaluating the reconstruction on a concrete
schedule pair. -/
def reconEnv : PlannerEnv where
  tasks := [0]
  taskSubFlights := fun _ => [(0, 0), (1, 0), (2, 0), (3, 0), (4, 0), (5, 0), (6, 0)]
  tasks2areas := fun _ => 0
  startTransitionSubFlights := fun _ => [(9, 9)]
  areaStartOrientations := fun _ => 0
  generateTransitionFlight := fun _ _ _ _ => []

end FlightPlanner

namespace FlightPlanner

/-- C1: From state `s`, the move along axis `i` produces a state whose
`i`-th coordinate is `min(T_i, s_i + TIMESLICE)` and whose other
coordinates are unchanged. -/
theorem move_sets_only_axis (T : List ℚ) (s : ProgressState) (i : ℕ)
    (hi : i < s.length) :
    (genState T s i).getD i 0 = min (T.getD i 0) (s.getD i 0 + TIMESLICE) ∧
      ∀ j, j ≠ i → (genState T s i).getD j 0 = s.getD j 0 := by
  constructor
  · simp [genState, List.getD, List.getElem?_set_self' , hi]
  · intro j hj
    simp [genState, List.getD, List.getElem?_set_ne (by omega : i ≠ j)]

/-- Witness for `move_sets_only_axis` at a concrete state. -/
theorem move_sets_only_axis_witness :
    (genState [20, 40] [0, 15] 0).getD 0 0 =
        min (([20, 40] : List ℚ).getD 0 0) (([0, 15] : List ℚ).getD 0 0 + TIMESLICE) ∧
      ∀ j, j ≠ 0 → (genState [20, 40] [0, 15] 0).getD j 0 = ([0, 15] : List ℚ).getD j 0 :=
  move_sets_only_axis [20, 40] [0, 15] 0 (by decide)

/-- C3 counterexample: for a sub-flight of 2 waypoints the search uses
`T = 2·30/14`, not the claimed `(2−1)·30/14`. -/
theorem taskTime_not_count_minus_one :
    (taskTimes twoPointEnv).getD 0 0 ≠
      ((twoPointEnv.taskSubFlights 0).length - 1 : ℚ) * EVERY_X_METERS / AIRSPEED := by
  norm_num [taskTimes, twoPointEnv, flightDuration, EVERY_X_METERS, AIRSPEED]

/-- C3 amended: the required time `T_i` equals the duration of task `i`'s
sub-flight where a list of `count` waypoints has duration
`count · EVERY_X_METERS / AIRSPEED` (the source divides the *count*,
not `count − 1`, times the spacing by the airspeed). -/
theorem taskTime_eq_count_based_duration (env : PlannerEnv) (i : ℕ)
    (hi : i < env.tasks.length) :
    (taskTimes env).getD i 0 =
      ((env.taskSubFlights (env.tasks.getD i 0)).length : ℚ) *
        EVERY_X_METERS / AIRSPEED := by
  unfold taskTimes flightDuration
  rw [List.getD_eq_getElem?_getD, List.getElem?_map]
  rw [List.getElem?_eq_getElem hi]
  simp [List.getD_eq_getElem?_getD, List.getElem?_eq_getElem hi]

/-- Witness for `taskTime_eq_count_based_duration` on `twoPointEnv`. -/
theorem taskTime_eq_count_based_duration_witness :
    (taskTimes twoPointEnv).getD 0 0 =
      ((twoPointEnv.taskSubFlights (twoPointEnv.tasks.getD 0 0)).length : ℚ) *
        EVERY_X_METERS / AIRSPEED :=
  taskTime_eq_count_based_duration twoPointEnv 0 (by decide)

/-- If every index up to `size - 1` has cumulative time below the goal,
the interpolation loop runs to the last index. -/
theorem interpGo_runs_to_last (t : ℚ) (size : ℕ) :
    ∀ fuel i, i ≤ size - 1 → size - 1 - i ≤ fuel →
      (∀ k : ℕ, k ≤ size - 1 → (k : ℚ) * EVERY_X_METERS / AIRSPEED < t) →
      interpGo t size fuel i = size - 1 := by
  intro fuel
  induction fuel with
  | zero =>
    intro i hi hfuel _
    have : i = size - 1 := by omega
    simp [interpGo, this]
  | succ fuel ih =>
    intro i hi hfuel hbelow
    unfold interpGo
    by_cases hlast : i = size - 1
    · simp [hlast]
    · have hlt : ¬ ((i : ℚ) * EVERY_X_METERS / AIRSPEED ≥ t) :=
        not_le.mpr (hbelow i hi)
      simp only [hlt, hlast, or_self, if_false]
      exact ih (i + 1) (by omega) (by omega) hbelow

/-- C9: the interpolator (for a non-negative target time) fails on an
empty list, returns `(p[0], startingOrientation)` for a single-point
list, and when the target time exceeds the path's total duration it
still succeeds, returning the last-segment extrapolation. -/
theorem interpolate_edge_cases (geo : Geo) (path : List Position)
    (so t : ℚ) (ht : 0 ≤ t) :
    (path = [] → interpolatePath geo path so t = none) ∧
    (path.length = 1 →
      interpolatePath geo path so t = some (path.getD 0 defaultPosition, so)) ∧
    (2 ≤ path.length →
      ((path.length - 1 : ℕ) : ℚ) * EVERY_X_METERS / AIRSPEED < t →
      interpolatePath geo path so t =
        some (segmentCompute geo path t (path.length - 1))) := by
  have hnotneg : ¬ (t < 0) := not_lt.mpr ht
  refine ⟨fun hempty => ?_, fun hone => ?_, fun htwo hdur => ?_⟩
  · simp [interpolatePath, hempty]
  · have : ¬ path.isEmpty = true := by
      cases path with
      | nil => simp at hone
      | cons a l => simp
    simp [interpolatePath, hnotneg, this, hone]
  · have hne : ¬ path.isEmpty = true := by
      cases path with
      | nil => simp at htwo
      | cons a l => simp
    have hone : ¬ path.length = 1 := by omega
    have hloop : interpGo t path.length path.length 1 = path.length - 1 := by
      apply interpGo_runs_to_last t path.length path.length 1 (by omega) (by omega)
      intro k hk
      have hk' : (k : ℚ) ≤ ((path.length - 1 : ℕ) : ℚ) := by exact_mod_cast hk
      calc (k : ℚ) * EVERY_X_METERS / AIRSPEED
          ≤ ((path.length - 1 : ℕ) : ℚ) * EVERY_X_METERS / AIRSPEED := by
            have h30 : (0 : ℚ) ≤ EVERY_X_METERS := by norm_num [EVERY_X_METERS]
            have h14 : (0 : ℚ) < AIRSPEED := by norm_num [AIRSPEED]
            gcongr
        _ < t := hdur
    simp [interpolatePath, hnotneg, hne, hone, hloop]

/-- Witness for `interpolate_edge_cases`: all three cases evaluated on
concrete inputs. -/
theorem interpolate_edge_cases_witness :
    (interpolatePath geo0 [] 0 1 = none) ∧
    (interpolatePath geo0 [(3, 4)] 9 1 = some ((3, 4), 9)) ∧
    (interpolatePath geo0 [(0, 0), (1, 0)] 0 5 =
      some (segmentCompute geo0 [(0, 0), (1, 0)] 5 1)) :=
  ⟨(interpolate_edge_cases geo0 [] 0 1 (by norm_num)).1 rfl,
   (interpolate_edge_cases geo0 [(3, 4)] 9 1 (by norm_num)).2.1 (by decide),
   (interpolate_edge_cases geo0 [(0, 0), (1, 0)] 0 5 (by norm_num)).2.2
     (by decide)
     (by norm_num [EVERY_X_METERS, AIRSPEED])⟩

/-- The interpolator returns `none` exactly when the goal time is
negative or the path is empty (the output pointers being handled
separately in `interpolatePathC`). -/
theorem interpolatePath_eq_none_iff (geo : Geo) (path : List Position)
    (so t : ℚ) :
    interpolatePath geo path so t = none ↔ (t < 0 ∨ path = []) := by
  unfold interpolatePath
  split_ifs with h1 h2 h3 <;> simp_all [List.isEmpty_iff]

/-- C10: whenever the interpolator fails — null output pointer, negative
goal time, or empty waypoint list, and in no other case — it returns
`false` and the caller's output variables keep their old values. -/
theorem interpolate_failure_writes_nothing (geo : Geo)
    (outPositionOk outOrientationOk : Bool) (path : List Position)
    (so t : ℚ) (oldPos : Position) (oldOrient : ℚ) :
    ((interpolatePathC geo outPositionOk outOrientationOk path so t
        oldPos oldOrient).1 = false ↔
      (outPositionOk = false ∨ outOrientationOk = false ∨ t < 0 ∨ path = [])) ∧
    ((interpolatePathC geo outPositionOk outOrientationOk path so t
        oldPos oldOrient).1 = false →
      (interpolatePathC geo outPositionOk outOrientationOk path so t
        oldPos oldOrient).2 = (oldPos, oldOrient)) := by
  unfold interpolatePathC
  by_cases hptr : outPositionOk = false ∨ outOrientationOk = false
  · simp [hptr]
    tauto
  · rcases hres : interpolatePath geo path so t with _ | ⟨p', o'⟩
    · have := (interpolatePath_eq_none_iff geo path so t).mp hres
      simp [hptr, hres]
      tauto
    · have : ¬ (interpolatePath geo path so t = none) := by simp [hres]
      have hnot := (interpolatePath_eq_none_iff geo path so t).not.mp this
      push_neg at hptr hnot
      simp [hptr, hres]
      exact hnot

/-- Truncation toward zero agrees with the floor on non-negative
values. -/
theorem qrealToInt_of_nonneg (q : ℚ) (hq : 0 ≤ q) : qrealToInt q = ⌊q⌋ := by
  simp [qrealToInt, not_lt.mpr hq]

/-- Reading indices `a, a+1, …, a+n-1` out of a list that contains them
all yields the corresponding contiguous slice. -/
theorem collectAt_range (l : List Position) :
    ∀ (n a : ℕ), a + n ≤ l.length →
      collectAt l ((List.range n).map (fun (k : ℕ) => (a : ℤ) + (k : ℤ))) =
        some ((l.take (a + n)).drop a) := by
  intro n
  induction n with
  | zero =>
    intro a _
    have hlen : (l.take a).length ≤ a := by simp [List.length_take]
    simp [collectAt, List.drop_eq_nil_of_le hlen]
  | succ n ih =>
    intro a ha
    have haLt : a < l.length := by omega
    rw [List.range_succ_eq_map, List.map_cons]
    have hhead : qlistAt l ((a : ℕ) : ℤ) = some (l.get ⟨a, haLt⟩) := by
      simp [qlistAt, haLt]
    have htail :
        (List.map Nat.succ (List.range n)).map (fun (k : ℕ) => (a : ℤ) + (k : ℤ)) =
          (List.range n).map (fun (k : ℕ) => ((a + 1 : ℕ) : ℤ) + (k : ℤ)) := by
      rw [List.map_map]
      apply List.map_congr_left
      intro k _
      simp only [Function.comp_apply]
      push_cast
      ring
    have hih := ih (a + 1) (by omega)
    rw [show a + 1 + n = a + (n + 1) by omega] at hih
    have hslice :
        (l.take (a + (n + 1))).drop a =
          l.get ⟨a, haLt⟩ :: (l.take (a + (n + 1))).drop (a + 1) := by
      have hlt : a < (l.take (a + (n + 1))).length := by
        rw [List.length_take]
        omega
      rw [List.drop_eq_getElem_cons hlt]
      simp [List.get_eq_getElem]
    simp only [Nat.cast_zero, add_zero, htail, hslice, collectAt, hhead, hih]

/-- `_getPathPortion` on non-negative times whose ending index is within
the path: the contiguous slice from `⌊start·AIRSPEED/EVERY_X_METERS⌋`
inclusive to `⌊end·AIRSPEED/EVERY_X_METERS⌋` exclusive. -/
theorem getPathPortion_eq_slice (path : List Position) (ts te : ℚ)
    (hts : 0 ≤ ts) (hte : 0 ≤ te)
    (hb : (⌊te * AIRSPEED / EVERY_X_METERS⌋).toNat ≤ path.length) :
    getPathPortion path ts te =
      some ((path.take (⌊te * AIRSPEED / EVERY_X_METERS⌋).toNat).drop
            (⌊ts * AIRSPEED / EVERY_X_METERS⌋).toNat) := by
  have hs : (0 : ℚ) ≤ ts * AIRSPEED / EVERY_X_METERS :=
    div_nonneg (mul_nonneg hts (by norm_num [AIRSPEED]))
      (by norm_num [EVERY_X_METERS])
  have he : (0 : ℚ) ≤ te * AIRSPEED / EVERY_X_METERS :=
    div_nonneg (mul_nonneg hte (by norm_num [AIRSPEED]))
      (by norm_num [EVERY_X_METERS])
  have hsf : (0 : ℤ) ≤ ⌊ts * AIRSPEED / EVERY_X_METERS⌋ := Int.floor_nonneg.mpr hs
  have hef : (0 : ℤ) ≤ ⌊te * AIRSPEED / EVERY_X_METERS⌋ := Int.floor_nonneg.mpr he
  set a : ℕ := (⌊ts * AIRSPEED / EVERY_X_METERS⌋).toNat with hadef
  set b : ℕ := (⌊te * AIRSPEED / EVERY_X_METERS⌋).toNat with hbdef
  have haz : ⌊ts * AIRSPEED / EVERY_X_METERS⌋ = (a : ℤ) := by
    rw [hadef, Int.toNat_of_nonneg hsf]
  have hbz : ⌊te * AIRSPEED / EVERY_X_METERS⌋ = (b : ℤ) := by
    rw [hbdef, Int.toNat_of_nonneg hef]
  unfold getPathPortion intRange
  rw [qrealToInt_of_nonneg _ hs, qrealToInt_of_nonneg _ he, haz, hbz]
  rcases le_or_lt a b with hab | hab
  · have hcount : ((b : ℤ) - (a : ℤ)).toNat = b - a := by omega
    rw [hcount]
    have := collectAt_range path (b - a) a (by omega)
    rw [show a + (b - a) = b by omega] at this
    exact this
  · have hcount : ((b : ℤ) - (a : ℤ)).toNat = 0 := by omega
    rw [hcount]
    have hlen : (path.take b).length ≤ a := by
      rw [List.length_take]
      omega
    simp [collectAt, List.drop_eq_nil_of_le hlen]

/-- C6: walking the schedule pairwise, each step appends (a) the start
transition of the task's area when the previous interval is the start
state, else (b) the transition memoized for the current interval when
the last task changed, else nothing — followed by the slice of the
task's sub-flight between the truncated indices of the two times. -/
theorem reconstruct_pair (env : PlannerEnv)
    (LT : List (ProgressState × ℕ)) (TF : List (ProgressState × List Position))
    (origin prev cur : ProgressState) (rest : List ProgressState)
    (i task : ℕ) (hi : i = qhashValue LT cur 0)
    (htask : task = env.tasks.getD i 0)
    (hprev : 0 ≤ prev.getD i 0) (hcur : 0 ≤ cur.getD i 0)
    (hb : (⌊cur.getD i 0 * AIRSPEED / EVERY_X_METERS⌋).toNat ≤
      (env.taskSubFlights task).length) :
    reconstructPath env LT TF origin prev (cur :: rest) =
      (reconstructPath env LT TF origin cur rest).map
        (fun tail =>
          (if prev = origin then
              env.startTransitionSubFlights (env.tasks2areas task)
            else if qhashValue LT prev 0 ≠ i then qhashValue TF cur []
            else []) ++
          ((env.taskSubFlights task).take
              (⌊cur.getD i 0 * AIRSPEED / EVERY_X_METERS⌋).toNat).drop
              (⌊prev.getD i 0 * AIRSPEED / EVERY_X_METERS⌋).toNat ++ tail) := by
  subst htask
  subst hi
  rw [reconstructPath]
  rw [getPathPortion_eq_slice _ _ _ hprev hcur hb]
  cases hrec : reconstructPath env LT TF origin cur rest with
  | none => simp
  | some tail => simp

/-- Witness for `reconstruct_pair` on a concrete origin-to-goal pair
(`prev = (0)`, `cur = (15)`, one task of seven waypoints). -/
theorem reconstruct_pair_witness :
    reconstructPath reconEnv [([15], 0)] [] [0] [0] [[15]] =
      (reconstructPath reconEnv [([15], 0)] [] [0] [(15 : ℚ)] []).map
        (fun tail =>
          (if ([0] : ProgressState) = [0] then
              reconEnv.startTransitionSubFlights (reconEnv.tasks2areas 0)
            else if qhashValue [([15], 0)] ([0] : ProgressState) 0 ≠ 0 then
              qhashValue [] [(15 : ℚ)] []
            else []) ++
          ((reconEnv.taskSubFlights 0).take
              (⌊([(15 : ℚ)] : ProgressState).getD 0 0 * AIRSPEED /
                EVERY_X_METERS⌋).toNat).drop
              (⌊([0] : ProgressState).getD 0 0 * AIRSPEED /
                EVERY_X_METERS⌋).toNat ++ tail) :=
  reconstruct_pair reconEnv [([15], 0)] [] [0] [0] [(15 : ℚ)] []
    0 0 (by norm_num [qhashValue, List.find?]) (by norm_num [reconEnv])
    (by norm_num) (by norm_num)
    (by norm_num [reconEnv, AIRSPEED, EVERY_X_METERS])

/-- Looking up the key just inserted returns the inserted value. -/
theorem qhashValue_insert_self [DecidableEq κ] (m : List (κ × α)) (k : κ)
    (v : α) (d : α) : qhashValue (qhashInsert m k v) k d = v := by
  unfold qhashValue qhashInsert
  rw [List.find?_cons_of_pos]
  · rfl
  · simp

/-- Inserting under a different key does not change a lookup. -/
theorem qhashValue_insert_ne [DecidableEq κ] (m : List (κ × α)) (k k' : κ)
    (v : α) (d : α) (h : k' ≠ k) :
    qhashValue (qhashInsert m k v) k' d = qhashValue m k' d := by
  unfold qhashValue qhashInsert
  rw [List.find?_cons_of_neg]
  simp [Ne.symm h]

/-- Inserting under a different key does not change `contains`. -/
theorem qhashContains_insert_ne [DecidableEq κ] (m : List (κ × α)) (k k' : κ)
    (v : α) (h : k' ≠ k) :
    qhashContains (qhashInsert m k v) k' = qhashContains m k' := by
  unfold qhashContains qhashInsert
  rw [List.find?_cons_of_neg]
  simp [Ne.symm h]

/-- C2: the cost of enqueueing the move `s →_i s'` is the Manhattan
distance from `s` to the goal plus the switch penalty — the duration of
the start transition of task `i`'s area when `s` has no recorded last
task, zero when `s`'s last task is `i`, and otherwise the duration of
the intermediate flight planned between the point interpolated along
task `j = lastTask(s)`'s sub-flight at time `s_j` and the point
interpolated along task `i`'s sub-flight at time `s_i`; in the latter
case that flight is memoized keyed by `s'`, otherwise the memo table is
untouched. -/
theorem move_cost_decomposition (env : PlannerEnv) (geo : Geo) (T : List ℚ)
    (endState state : ProgressState) (cfg : SearchConfig) (i : ℕ)
    (hnodup : env.tasks.Nodup)
    (hjlt : qhashValue cfg.lastTasks state 0 < env.tasks.length)
    (hnc : genState T state i ∉ cfg.closedSet)
    (hne : genState T state i ≠ state) :
    (genOne env geo T endState state cfg i).worklist =
      worklistInsert
        (manhattanDistance (vsub endState state) +
          (if qhashContains cfg.lastTasks state = false then
            flightDuration (env.startTransitionSubFlights
              (env.tasks2areas (env.tasks.getD i 0)))
          else if qhashValue cfg.lastTasks state 0 = i then 0
          else
            flightDuration (specContextSwitchFlight env geo state
              (qhashValue cfg.lastTasks state 0) i)))
        (genState T state i) cfg.worklist ∧
    (genOne env geo T endState state cfg i).transitionFlights =
      (if qhashContains cfg.lastTasks state = false then cfg.transitionFlights
       else if qhashValue cfg.lastTasks state 0 = i then cfg.transitionFlights
       else qhashInsert cfg.transitionFlights (genState T state i)
         (specContextSwitchFlight env geo state
           (qhashValue cfg.lastTasks state 0) i)) := by
  have h1 : qhashContains (qhashInsert cfg.lastTasks (genState T state i) i)
      state = qhashContains cfg.lastTasks state :=
    qhashContains_insert_ne _ _ _ _ (Ne.symm hne)
  have h2 : qhashValue (qhashInsert cfg.lastTasks (genState T state i) i)
      state 0 = qhashValue cfg.lastTasks state 0 :=
    qhashValue_insert_ne _ _ _ _ _ (Ne.symm hne)
  have h3 : qhashValue (qhashInsert cfg.lastTasks (genState T state i) i)
      (genState T state i) 0 = i :=
    qhashValue_insert_self _ _ _ _
  have h4 : env.tasks.indexOf
      (env.tasks.getD (qhashValue cfg.lastTasks state 0) 0) =
      qhashValue cfg.lastTasks state 0 := by
    rw [List.getD_eq_getElem env.tasks 0 hjlt]
    exact List.indexOf_getElem hnodup _ _
  simp only [genOne, switchPenalty, specContextSwitchFlight, h1, h2, h3, h4]
  rw [if_neg hnc]
  simp only [Bool.not_eq_true]
  constructor
  · split_ifs <;> rfl
  · split_ifs <;> rfl

/-- Witness for `move_cost_decomposition`: the move out of the origin
on a one-task problem. -/
theorem move_cost_decomposition_witness :
    (genOne twoPointEnv geo0 [15] [15] [0] (initialConfig [0]) 0).worklist =
      worklistInsert
        (manhattanDistance (vsub [15] [0]) +
          (if qhashContains (initialConfig [0]).lastTasks [0] = false then
            flightDuration (twoPointEnv.startTransitionSubFlights
              (twoPointEnv.tasks2areas (twoPointEnv.tasks.getD 0 0)))
          else if qhashValue (initialConfig [0]).lastTasks [0] 0 = 0 then 0
          else
            flightDuration (specContextSwitchFlight twoPointEnv geo0 [0]
              (qhashValue (initialConfig [0]).lastTasks [0] 0) 0)))
        (genState [15] [0] 0) (initialConfig [0]).worklist ∧
    (genOne twoPointEnv geo0 [15] [15] [0] (initialConfig [0]) 0).transitionFlights =
      (if qhashContains (initialConfig [0]).lastTasks [0] = false then
        (initialConfig [0]).transitionFlights
       else if qhashValue (initialConfig [0]).lastTasks [0] 0 = 0 then
        (initialConfig [0]).transitionFlights
       else qhashInsert (initialConfig [0]).transitionFlights
         (genState [15] [0] 0)
         (specContextSwitchFlight twoPointEnv geo0 [0]
           (qhashValue (initialConfig [0]).lastTasks [0] 0) 0)) :=
  move_cost_decomposition twoPointEnv geo0 [15] [15] [0] (initialConfig [0]) 0
    (by decide) (by simp [qhashValue, initialConfig, twoPointEnv])
    (by simp [genState, initialConfig]) (by norm_num [genState, TIMESLICE])

/-- C4: if the scheduling loop exhausts its worklist without popping
the goal, the iteration produces no flight (`_buildSchedule` fails at
the out-of-range `schedule[0]` access) and `bestFlightSoFar` is left
unchanged. -/
theorem search_exhaustion_leaves_best_unchanged (env : PlannerEnv)
    (geo : Geo) (fuel : ℕ) (startState : ProgressState) (cfg cfgEnd : SearchConfig)
    (best : List Position)
    (h : searchLoop env geo (taskTimes env) (taskTimes env) fuel cfg =
      .exhausted cfgEnd) :
    buildScheduleFrom env geo fuel startState cfg = none ∧
    bestFlightAfterIteration env geo fuel startState cfg best = best := by
  have h1 : buildScheduleFrom env geo fuel startState cfg = none := by
    unfold buildScheduleFrom
    rw [h]
  refine ⟨h1, ?_⟩
  unfold bestFlightAfterIteration
  rw [h1]

/-- Witness for `search_exhaustion_leaves_best_unchanged`: a
configuration whose worklist is already empty. -/
theorem search_exhaustion_leaves_best_unchanged_witness :
    buildScheduleFrom twoPointEnv geo0 1 [0] ⟨[], [], [], [], [], []⟩ = none ∧
    bestFlightAfterIteration twoPointEnv geo0 1 [0] ⟨[], [], [], [], [], []⟩
      [(1, 2)] = [(1, 2)] :=
  search_exhaustion_leaves_best_unchanged twoPointEnv geo0 1 [0]
    ⟨[], [], [], [], [], []⟩ ⟨[], [], [], [], [], []⟩ [(1, 2)] rfl

/-- `worklistInsert` permutes the inserted state to the front. -/
theorem statesOf_worklistInsert (k : ℚ) (v : ProgressState) :
    ∀ w : List (ℚ × ProgressState),
      List.Perm (statesOf (worklistInsert k v w)) (v :: statesOf w) := by
  intro w
  induction w with
  | nil => simp [worklistInsert, statesOf]
  | cons e rest ih =>
    unfold worklistInsert
    by_cases h : k ≤ e.1
    · simp [h, statesOf]
    · simp only [h, if_false]
      have h1 : statesOf (e :: worklistInsert k v rest) =
          e.2 :: statesOf (worklistInsert k v rest) := rfl
      have h2 : statesOf (e :: rest) = e.2 :: statesOf rest := rfl
      rw [h1, h2]
      exact (ih.cons e.2).trans (List.Perm.swap v e.2 (statesOf rest))

/-- A move preserves the dimension. -/
theorem genState_length (T : List ℚ) (s : ProgressState) (i : ℕ) :
    (genState T s i).length = s.length := by
  simp [genState]

/-- A move out of range is the identity (`QVectorND` indexing would be
out of bounds; `List.set` models it as a no-op). -/
theorem genState_of_le (T : List ℚ) (s : ProgressState) (i : ℕ)
    (h : s.length ≤ i) : genState T s i = s := by
  simp [genState, List.set_eq_of_length_le h]

/-- Unmoved coordinates of a move. -/
theorem genState_getD_ne (T : List ℚ) (s : ProgressState) (i j : ℕ)
    (h : j ≠ i) : (genState T s i).getD j 0 = s.getD j 0 := by
  simp [genState, List.getD, List.getElem?_set_ne (by omega : i ≠ j)]

/-- The moved coordinate of an in-range move. -/
theorem genState_getD_self (T : List ℚ) (s : ProgressState) (i : ℕ)
    (hi : i < s.length) :
    (genState T s i).getD i 0 = min (T.getD i 0) (s.getD i 0 + TIMESLICE) := by
  simp [genState, List.getD, List.getElem?_set_self', hi]

/-- Entries of a non-negative time list are non-negative. -/
theorem nonneg_getD (T : List ℚ) (hT : nonnegTimes T) (j : ℕ)
    (hj : j < T.length) : 0 ≤ T.getD j 0 := by
  rw [List.getD_eq_getElem T 0 hj]
  exact hT _ (List.getElem_mem hj)

/-- Moves preserve the state bounds. -/
theorem boundedState_genState (T : List ℚ) (s : ProgressState) (i : ℕ)
    (hT : nonnegTimes T) (hs : boundedState T s) :
    boundedState T (genState T s i) := by
  obtain ⟨hlen, hcoord⟩ := hs
  refine ⟨by rw [genState_length, hlen], ?_⟩
  intro j hj
  by_cases hij : j = i
  · subst hij
    by_cases hlt : j < s.length
    · rw [genState_getD_self T s j hlt]
      refine ⟨le_min (nonneg_getD T hT j hj) ?_, min_le_left _ _⟩
      have := (hcoord j hj).1
      unfold TIMESLICE
      linarith
    · rw [genState_of_le T s j (not_lt.mp hlt)]
      exact hcoord j hj
  · rw [genState_getD_ne T s i j hij]
    exact hcoord j hj

/-- Raising one in-range entry strictly raises the sum. -/
theorem sum_lt_sum_set (v : ℚ) :
    ∀ (l : List ℚ) (i : ℕ), i < l.length → l.getD i 0 < v →
      l.sum < (l.set i v).sum := by
  intro l
  induction l with
  | nil => intro i hi; simp at hi
  | cons a t ih =>
    intro i hi hv
    cases i with
    | zero =>
      simp only [List.getD_cons_zero] at hv
      simp only [List.set_cons_zero, List.sum_cons]
      linarith
    | succ n =>
      simp only [List.getD_cons_succ] at hv
      simp only [List.length_cons] at hi
      have := ih n (by omega) hv
      simp only [List.set_cons_succ, List.sum_cons]
      linarith

/-- Setting an in-range entry to its current value is the identity. -/
theorem set_getD_self (l : List ℚ) (i : ℕ) (v : ℚ) (hi : i < l.length)
    (h : l.getD i 0 = v) : l.set i v = l := by
  apply List.ext_getElem (by simp)
  intro n h1 h2
  rw [List.getElem_set]
  split
  · next heq =>
    subst heq
    rw [← h, List.getD_eq_getElem l 0 hi]
  · rfl

/-- A move that changes the state strictly increases the coordinate
sum. -/
theorem sum_lt_genState (T : List ℚ) (s : ProgressState) (i : ℕ)
    (hT : nonnegTimes T) (hb : boundedState T s)
    (hne : genState T s i ≠ s) : s.sum < (genState T s i).sum := by
  by_cases hi : i < s.length
  · have hiT : i < T.length := hb.1 ▸ hi
    have hle : s.getD i 0 ≤ min (T.getD i 0) (s.getD i 0 + TIMESLICE) := by
      refine le_min (hb.2 i hiT).2 ?_
      unfold TIMESLICE
      linarith
    rcases lt_or_eq_of_le hle with hlt | heq
    · exact sum_lt_sum_set _ s i hi hlt
    · exact absurd (set_getD_self s i _ hi heq) hne
  · exact absurd (genState_of_le T s i (not_lt.mp hi)) hne

/-- A move cannot produce the all-zeros start state except as the
identity move on the start state itself. -/
theorem genState_eq_replicate_imp (T : List ℚ) (s : ProgressState) (i : ℕ)
    (hT : nonnegTimes T) (hb : boundedState T s)
    (h : genState T s i = List.replicate T.length 0) :
    genState T s i = s := by
  by_cases hi : i < s.length
  · have hiT : i < T.length := hb.1 ▸ hi
    have hv : (genState T s i).getD i 0 = 0 := by
      rw [h, List.getD_eq_getElem _ 0 (by simpa using hiT)]
      simp
    rw [genState_getD_self T s i hi] at hv
    have h0 : 0 ≤ s.getD i 0 := (hb.2 i hiT).1
    have hle : s.getD i 0 ≤ min (T.getD i 0) (s.getD i 0 + TIMESLICE) := by
      refine le_min (hb.2 i hiT).2 ?_
      unfold TIMESLICE
      linarith
    rw [hv] at hle
    have hsz : s.getD i 0 = 0 := le_antisymm hle h0
    unfold genState
    rw [hv]
    exact set_getD_self s i 0 hi hsz
  · exact genState_of_le T s i (not_lt.mp hi)

/-- One generation step preserves the search invariant, the pop log and
the closed set (monotonically). -/
theorem genOne_step (env : PlannerEnv) (geo : Geo) (T : List ℚ)
    (endSt s : ProgressState) (cfg : SearchConfig) (i : ℕ)
    (hT : nonnegTimes T) (hsc : s ∈ cfg.closedSet) (hsb : boundedState T s)
    (hinv : SearchInv T cfg) :
    SearchInv T (genOne env geo T endSt s cfg i) ∧
    (genOne env geo T endSt s cfg i).popLog = cfg.popLog ∧
    (∀ x ∈ cfg.closedSet, x ∈ (genOne env geo T endSt s cfg i).closedSet) := by
  obtain ⟨hnodup, hlog, hwlc, hwlb, hpar⟩ := hinv
  by_cases hmem : genState T s i ∈ cfg.closedSet
  · simp only [genOne]
    rw [if_pos hmem]
    exact ⟨⟨hnodup, hlog, hwlc, hwlb, hpar⟩, rfl, fun x h => h⟩
  · have hne : genState T s i ≠ s := fun he => hmem (by rw [he]; exact hsc)
    have hnotin : genState T s i ∉ cfg.popLog ++ statesOf cfg.worklist := by
      intro hin
      rcases List.mem_append.mp hin with hin | hin
      · exact hmem (hlog _ hin)
      · rcases hwlc _ hin with hcl | horig
        · exact hmem hcl
        · have heqs := genState_eq_replicate_imp T s i hT hsb horig
          exact hmem (by rw [heqs]; exact hsc)
    simp only [genOne]
    rw [if_neg hmem]
    refine ⟨⟨?_, ?_, ?_, ?_, ?_⟩, rfl, ?_⟩
    · have hmid : (cfg.popLog ++ (genState T s i :: statesOf cfg.worklist)).Nodup :=
        List.nodup_middle.mpr (List.nodup_cons.mpr ⟨hnotin, hnodup⟩)
      exact ((List.Perm.append_left cfg.popLog
        (statesOf_worklistInsert _ _ cfg.worklist)).nodup_iff).mpr hmid
    · intro x hx
      exact List.mem_cons_of_mem _ (hlog x hx)
    · intro x hx
      have hx' := (statesOf_worklistInsert _ _ cfg.worklist).mem_iff.mp hx
      rcases List.mem_cons.mp hx' with hx0 | hxold
      · left
        rw [hx0]
        exact List.mem_cons_self _ _
      · rcases hwlc x hxold with hcl | horig
        · left
          exact List.mem_cons_of_mem _ hcl
        · right
          exact horig
    · intro x hx
      have hx' := (statesOf_worklistInsert _ _ cfg.worklist).mem_iff.mp hx
      rcases List.mem_cons.mp hx' with hx0 | hxold
      · rw [hx0]
        exact boundedState_genState T s i hT hsb
      · exact hwlb x hxold
    · intro p hp
      simp only [qhashInsert] at hp
      rcases List.mem_cons.mp hp with hp0 | hpold
      · rw [hp0]
        exact sum_lt_genState T s i hT hsb hne
      · exact hpar p hpold
    · intro x hx
      exact List.mem_cons_of_mem _ hx

/-- The whole generation loop preserves the invariant and the pop
log. -/
theorem foldl_genOne_inv (env : PlannerEnv) (geo : Geo) (T : List ℚ)
    (endSt s : ProgressState) (hT : nonnegTimes T) :
    ∀ (is : List ℕ) (cfg : SearchConfig),
      s ∈ cfg.closedSet → boundedState T s → SearchInv T cfg →
      SearchInv T (is.foldl (genOne env geo T endSt s) cfg) ∧
      (is.foldl (genOne env geo T endSt s) cfg).popLog = cfg.popLog := by
  intro is
  induction is with
  | nil =>
    intro cfg _ _ h3
    exact ⟨h3, rfl⟩
  | cons i rest ih =>
    intro cfg h1 h2 h3
    have hstep := genOne_step env geo T endSt s cfg i hT h1 h2 h3
    have hrec := ih (genOne env geo T endSt s cfg i) (hstep.2.2 s h1) h2 hstep.1
    simp only [List.foldl_cons]
    exact ⟨hrec.1, hrec.2.trans hstep.2.1⟩

/-- If every parent edge strictly decreases the coordinate sum, the
traceback never repeats a state. -/
theorem traceback_nodup (parents : List (ProgressState × ProgressState))
    (hpar : ∀ p ∈ parents, p.2.sum < p.1.sum) :
    ∀ (fuel : ℕ) (current : ProgressState) (acc : List ProgressState),
      acc.Nodup → (∀ a ∈ acc, current.sum < a.sum) →
      (traceback parents fuel current acc).Nodup := by
  intro fuel
  induction fuel with
  | zero =>
    intro current acc hnd hlt
    simp only [traceback]
    exact List.nodup_cons.mpr
      ⟨fun hmem => lt_irrefl _ (hlt _ hmem), hnd⟩
  | succ fuel ih =>
    intro current acc hnd hlt
    simp only [traceback]
    by_cases hc : qhashContains parents current
    · rw [if_pos hc]
      obtain ⟨e, he⟩ : ∃ e, (parents.find? (fun p => p.1 = current)) = some e := by
        unfold qhashContains at hc
        exact Option.isSome_iff_exists.mp hc
      have heq : e.1 = current := by
        have := List.find?_some he
        simpa using this
      have hval : qhashValue parents current [] = e.2 := by
        unfold qhashValue
        rw [he]
        rfl
      have hlt' : (qhashValue parents current []).sum < current.sum := by
        rw [hval, ← heq]
        exact hpar e (List.mem_of_find?_eq_some he)
      apply ih (qhashValue parents current []) (current :: acc)
      · exact List.nodup_cons.mpr ⟨fun hmem => lt_irrefl _ (hlt _ hmem), hnd⟩
      · intro a ha
        rcases List.mem_cons.mp ha with rfl | ha
        · exact hlt'
        · exact lt_trans hlt' (hlt a ha)
    · rw [if_neg hc]
      exact List.nodup_cons.mpr
        ⟨fun hmem => lt_irrefl _ (hlt _ hmem), hnd⟩

/-- The coordinates of the all-zeros state. -/
theorem getD_replicate_zero (n i : ℕ) :
    (List.replicate n (0 : ℚ)).getD i 0 = 0 := by
  rw [List.getD_eq_getElem?_getD, List.getElem?_replicate]
  split <;> rfl

/-- The scheduling loop started in any invariant-satisfying
configuration yields a sound result. -/
theorem searchLoop_sound (env : PlannerEnv) (geo : Geo) (T : List ℚ)
    (endSt : ProgressState) (hT : nonnegTimes T) :
    ∀ (fuel : ℕ) (cfg : SearchConfig), SearchInv T cfg →
      searchResultSound (searchLoop env geo T endSt fuel cfg) := by
  intro fuel
  induction fuel with
  | zero =>
    intro cfg hinv
    obtain ⟨hnodup, hlog, _, _, _⟩ := hinv
    simp only [searchLoop, searchResultSound]
    exact ⟨hnodup.of_append_left, hlog⟩
  | succ fuel ih =>
    intro cfg hinv
    obtain ⟨hnodup, hlog, hwlc, hwlb, hpar⟩ := hinv
    rcases hwl : cfg.worklist with _ | ⟨⟨c, s⟩, rest⟩
    · simp only [searchLoop, hwl, searchResultSound]
      exact ⟨hnodup.of_append_left, hlog⟩
    · rw [hwl] at hnodup hwlc hwlb
      have hsl : statesOf ((c, s) :: rest) = s :: statesOf rest := rfl
      rw [hsl] at hnodup hwlc hwlb
      have hsb : boundedState T s := hwlb s (List.mem_cons_self _ _)
      have hnodup' : ((cfg.popLog ++ [s]) ++ statesOf rest).Nodup := by
        rw [List.append_assoc]
        exact hnodup
      have hinv' : SearchInv T
          { cfg with worklist := rest, closedSet := s :: cfg.closedSet,
                     popLog := cfg.popLog ++ [s] } := by
        refine ⟨hnodup', ?_, ?_, ?_, hpar⟩
        · intro x hx
          rcases List.mem_append.mp hx with hx | hx
          · exact List.mem_cons_of_mem _ (hlog x hx)
          · rcases List.mem_singleton.mp hx with rfl
            exact List.mem_cons_self _ _
        · intro x hx
          rcases hwlc x (List.mem_cons_of_mem _ hx) with hcl | horig
          · exact Or.inl (List.mem_cons_of_mem _ hcl)
          · exact Or.inr horig
        · intro x hx
          exact hwlb x (List.mem_cons_of_mem _ hx)
      simp only [searchLoop, hwl]
      by_cases hgoal : s = endSt
      · rw [if_pos hgoal]
        refine ⟨hnodup'.of_append_left, hinv'.2.1, ?_⟩
        exact traceback_nodup cfg.parents hpar _ s [] List.nodup_nil
          (by intro a ha; simp at ha)
      · rw [if_neg hgoal]
        apply ih
        have := foldl_genOne_inv env geo T endSt s hT (List.range s.length)
          { cfg with worklist := rest, closedSet := s :: cfg.closedSet,
                     popLog := cfg.popLog ++ [s] }
          (List.mem_cons_self _ _) hsb hinv'
        exact this.1

/-- C5: a generated state is inserted into the closed set immediately
(and a popped state at its pop), a state already closed is skipped
outright by generation, and consequently the search from the origin
never pops (expands) a state twice and a found schedule lists each
progress state at most once. -/
theorem closed_set_discipline (env : PlannerEnv) (geo : Geo) (fuel : ℕ) :
    (∀ (T : List ℚ) (endSt s : ProgressState) (cfg : SearchConfig) (i : ℕ),
      (genState T s i ∈ cfg.closedSet → genOne env geo T endSt s cfg i = cfg) ∧
      (genState T s i ∉ cfg.closedSet →
        genState T s i ∈ (genOne env geo T endSt s cfg i).closedSet)) ∧
    searchResultSound (searchLoop env geo (taskTimes env) (taskTimes env) fuel
      (initialConfig (List.replicate env.tasks.length 0))) := by
  constructor
  · intro T endSt s cfg i
    constructor
    · intro hmem
      simp only [genOne]
      rw [if_pos hmem]
    · intro hmem
      simp only [genOne]
      rw [if_neg hmem]
      exact List.mem_cons_self _ _
  · have hT : nonnegTimes (taskTimes env) := by
      intro t ht
      simp only [taskTimes, List.mem_map] at ht
      obtain ⟨x, _, rfl⟩ := ht
      unfold flightDuration EVERY_X_METERS AIRSPEED
      positivity
    apply searchLoop_sound env geo (taskTimes env) (taskTimes env) hT
    have hlen : env.tasks.length = (taskTimes env).length := by
      simp [taskTimes]
    refine ⟨by simp [initialConfig, statesOf], by simp [initialConfig], ?_, ?_, by simp [initialConfig]⟩
    · intro x hx
      simp only [initialConfig, statesOf, List.map_cons, List.map_nil,
        List.mem_singleton] at hx
      subst hx
      right
      rw [hlen]
    · intro x hx
      simp only [initialConfig, statesOf, List.map_cons, List.map_nil,
        List.mem_singleton] at hx
      subst hx
      refine ⟨by simp [hlen], ?_⟩
      intro i hi
      rw [getD_replicate_zero]
      exact ⟨le_refl 0, nonneg_getD _ hT i hi⟩

/-- Witness for `closed_set_discipline`: the skip of an already-closed
state evaluated concretely, alongside the soundness of a concrete
finished search. -/
theorem closed_set_discipline_witness :
    genOne twoPointEnv geo0 [15] [15] [0] ⟨[], [[15]], [], [], [], []⟩ 0 =
      ⟨[], [[15]], [], [], [], []⟩ ∧
    searchResultSound (searchLoop twoPointEnv geo0 (taskTimes twoPointEnv)
      (taskTimes twoPointEnv) 2
      (initialConfig (List.replicate twoPointEnv.tasks.length 0))) :=
  ⟨((closed_set_discipline twoPointEnv geo0 2).1 [15] [15] [0]
      ⟨[], [[15]], [], [], [], []⟩ 0).1
    (by norm_num [genState, TIMESLICE]),
   (closed_set_discipline twoPointEnv geo0 2).2⟩

/-- A successful walk returns the first trial point outside the
polygon: the exit point fails the containment test and all earlier
trial points pass it. -/
theorem walkExit_first_exit (contains : (ℚ × ℚ) → Bool) (centre dir : ℚ × ℚ)
    (step sign : ℚ) :
    ∀ (fuel c0 : ℕ) (p : ℚ × ℚ),
      walkExit contains centre dir step sign fuel c0 = some p →
      ∃ k : ℕ, p = trialPoint centre dir step sign (c0 + k) ∧
        contains (trialPoint centre dir step sign (c0 + k)) = false ∧
        ∀ j < k, contains (trialPoint centre dir step sign (c0 + j)) = true := by
  intro fuel
  induction fuel with
  | zero =>
    intro c0 p h
    simp [walkExit] at h
  | succ fuel ih =>
    intro c0 p h
    rw [walkExit] at h
    by_cases hc : contains (trialPoint centre dir step sign c0) = true
    · rw [if_neg (not_not_intro hc)] at h
      obtain ⟨k, hk1, hk2, hk3⟩ := ih (c0 + 1) p h
      refine ⟨k + 1, ?_, ?_, ?_⟩
      · rw [show c0 + (k + 1) = c0 + 1 + k by omega]
        exact hk1
      · rw [show c0 + (k + 1) = c0 + 1 + k by omega]
        exact hk2
      · intro j hj
        cases j with
        | zero => simpa using hc
        | succ j =>
          rw [show c0 + (j + 1) = c0 + 1 + j by omega]
          exact hk3 j (by omega)
    · rw [if_pos hc] at h
      refine ⟨0, ?_, ?_, ?_⟩
      · simpa using (Option.some.inj h).symm
      · simpa using Bool.not_eq_true _ ▸ hc
      · intro j hj
        omega

/-- A fold of `bestChordStep` that starts from `none` stays `none`. -/
theorem bestChordStep_none (geo : Geo) (area : AreaData) (fuel : ℕ) :
    ∀ l : List ℕ, l.foldl (bestChordStep geo area fuel) none = none := by
  intro l
  induction l with
  | nil => rfl
  | cons θ rest ih => simpa [bestChordStep] using ih

/-- The angle fold keeps a running maximum: the result dominates the
initial accumulator and every chord seen, and is either the initial
accumulator or the chord of one of the angles. -/
theorem bestChordStep_spec (geo : Geo) (area : AreaData) (fuel : ℕ) :
    ∀ (l : List ℕ) (acc res : ℚ × (ℚ × ℚ) × (ℚ × ℚ)),
      l.foldl (bestChordStep geo area fuel) (some acc) = some res →
      acc.1 ≤ res.1 ∧
      (∀ θ ∈ l, ∀ pn : (ℚ × ℚ) × (ℚ × ℚ),
        chordFor geo area θ fuel = some pn →
        distSq3 geo pn.1 pn.2 ≤ res.1) ∧
      (res = acc ∨ ∃ θ ∈ l, ∃ pn : (ℚ × ℚ) × (ℚ × ℚ),
        chordFor geo area θ fuel = some pn ∧
        res = (distSq3 geo pn.1 pn.2, pn.1, pn.2)) := by
  intro l
  induction l with
  | nil =>
    intro acc res h
    simp only [List.foldl_nil, Option.some.injEq] at h
    subst h
    exact ⟨le_refl _, by simp, Or.inl rfl⟩
  | cons θ rest ih =>
    intro acc res h
    rw [List.foldl_cons] at h
    rcases hch : chordFor geo area θ fuel with _ | ⟨pos, neg⟩
    · rw [show bestChordStep geo area fuel (some acc) θ = none by
        simp [bestChordStep, hch]] at h
      rw [bestChordStep_none] at h
      exact absurd h (by simp)
    · by_cases hgt : distSq3 geo pos neg > acc.1
      · rw [show bestChordStep geo area fuel (some acc) θ =
            some (distSq3 geo pos neg, pos, neg) by
          simp [bestChordStep, hch, hgt]] at h
        obtain ⟨h1, h2, h3⟩ := ih _ res h
        refine ⟨le_trans (le_of_lt hgt) h1, ?_, ?_⟩
        · intro θ' hθ' pn hpn
          rcases List.mem_cons.mp hθ' with rfl | hθ'
          · have : pn = (pos, neg) := by
              rw [hch] at hpn
              exact (Option.some.inj hpn).symm
            rw [this]
            exact h1
          · exact h2 θ' hθ' pn hpn
        · rcases h3 with rfl | ⟨θ', hθ', pn, hpn, hres⟩
          · exact Or.inr ⟨θ, List.mem_cons_self _ _, (pos, neg), hch, rfl⟩
          · exact Or.inr ⟨θ', List.mem_cons_of_mem _ hθ', pn, hpn, hres⟩
      · rw [show bestChordStep geo area fuel (some acc) θ = some acc by
          simp [bestChordStep, hch, hgt]] at h
        obtain ⟨h1, h2, h3⟩ := ih _ res h
        refine ⟨h1, ?_, ?_⟩
        · intro θ' hθ' pn hpn
          rcases List.mem_cons.mp hθ' with rfl | hθ'
          · have hpn' : pn = (pos, neg) := by
              rw [hch] at hpn
              exact (Option.some.inj hpn).symm
            rw [hpn']
            exact le_trans (not_lt.mp hgt) h1
          · exact h2 θ' hθ' pn hpn
        · rcases h3 with rfl | ⟨θ', hθ', pn, hpn, hres⟩
          · exact Or.inl rfl
          · exact Or.inr ⟨θ', List.mem_cons_of_mem _ hθ', pn, hpn, hres⟩

/-- C7 counterexample: the angle loop is `for (angleDeg = 0; angleDeg < 179; …)`,
so the integer angle 179° is never evaluated. -/
theorem angle_range_counterexample :
    ¬ (∀ θ : ℕ, θ ≤ 179 → θ ∈ angleCandidates) := fun h => by
  have h179 := h 179 (by norm_num)
  rw [angleCandidates] at h179
  simp at h179

/-- C7 amended: the selector evaluates exactly the integer angles in
`[0°, 178°]`; each evaluated chord consists of the first trial points
leaving the polygon along the positive and negative walk directions;
and when the loop finishes, the kept pair dominates every evaluated
chord in squared 3D earth-frame distance and is either an evaluated
chord (with its distance) or the untouched initial accumulator
`(DBL_MIN, (0,0), (0,0))` (kept when no chord strictly beats
`DBL_MIN`). -/
theorem endpoint_selector_amended (geo : Geo) (area : AreaData) (fuel : ℕ)
    (res : ℚ × (ℚ × ℚ) × (ℚ × ℚ)) (h : bestChord geo area fuel = some res) :
    (∀ θ : ℕ, θ ∈ angleCandidates ↔ θ ≤ 178) ∧
    (∀ (θ : ℕ) (pn : (ℚ × ℚ) × (ℚ × ℚ)),
      chordFor geo area θ fuel = some pn →
      (∃ k : ℕ,
        pn.1 = trialPoint area.centre (dirVec geo θ) (stepSizeOf area) 1 k ∧
        area.contains (trialPoint area.centre (dirVec geo θ) (stepSizeOf area) 1 k) = false ∧
        ∀ j < k, area.contains
          (trialPoint area.centre (dirVec geo θ) (stepSizeOf area) 1 j) = true) ∧
      (∃ k : ℕ,
        pn.2 = trialPoint area.centre (dirVec geo θ) (stepSizeOf area) (-1) k ∧
        area.contains (trialPoint area.centre (dirVec geo θ) (stepSizeOf area) (-1) k) = false ∧
        ∀ j < k, area.contains
          (trialPoint area.centre (dirVec geo θ) (stepSizeOf area) (-1) j) = true)) ∧
    (∀ θ ∈ angleCandidates, ∀ pn : (ℚ × ℚ) × (ℚ × ℚ),
      chordFor geo area θ fuel = some pn →
      distSq3 geo pn.1 pn.2 ≤ res.1) ∧
    (res = (DBL_MIN_Q, (0, 0), (0, 0)) ∨
      ∃ θ ∈ angleCandidates, ∃ pn : (ℚ × ℚ) × (ℚ × ℚ),
        chordFor geo area θ fuel = some pn ∧
        res = (distSq3 geo pn.1 pn.2, pn.1, pn.2)) := by
  have hspec := bestChordStep_spec geo area fuel angleCandidates
    (DBL_MIN_Q, (0, 0), (0, 0)) res h
  refine ⟨?_, ?_, hspec.2.1, hspec.2.2⟩
  · intro θ
    simp only [angleCandidates, List.mem_range]
    omega
  · intro θ pn hpn
    unfold chordFor at hpn
    rcases hp : walkExit area.contains area.centre (dirVec geo θ)
        (stepSizeOf area) 1 fuel 0 with _ | pos
    · rw [hp] at hpn
      simp at hpn
    · rcases hn : walkExit area.contains area.centre (dirVec geo θ)
          (stepSizeOf area) (-1) fuel 0 with _ | neg
      · rw [hp, hn] at hpn
        simp at hpn
      · rw [hp, hn] at hpn
        have hpn' : pn = (pos, neg) := (Option.some.inj hpn).symm
        subst hpn'
        constructor
        · have := walkExit_first_exit area.contains area.centre (dirVec geo θ)
            (stepSizeOf area) 1 fuel 0 pos hp
          simpa using this
        · have := walkExit_first_exit area.contains area.centre (dirVec geo θ)
            (stepSizeOf area) (-1) fuel 0 neg hn
          simpa using this

/-- The chord of `areaX` at angle 0 (and, the direction functions of
`geo0` being constant, at every angle): the positive walk exits at
count 2, the negative walk at count 1. -/
theorem chordFor_eval :
    chordFor geo0 areaX 0 3 = some ((251 / 25, 0), (499 / 50, 0)) := by
  norm_num [chordFor, walkExit, trialPoint, dirVec, stepSizeOf, geo0, areaX]

set_option maxRecDepth 4000 in
set_option maxHeartbeats 4000000 in
/-- The whole angle loop of `areaX` under `geo0`: every angle yields
the same chord, whose squared planar distance `(3/50)² = 9/2500`
beats `DBL_MIN`, so it is kept from the first angle on. -/
theorem bestChord_eval :
    bestChord geo0 areaX 3 =
      some (9 / 2500, (251 / 25, 0), (499 / 50, 0)) := by
  norm_num [bestChord, angleCandidates, bestChordStep, chordFor, walkExit,
    trialPoint, distSq3, DBL_MIN_Q, dirVec, stepSizeOf, geo0, areaX,
    List.range_succ]

/-- Witness for `endpoint_selector_amended`: the angle-range
characterisation at 179 and the domination of the angle-0 chord,
evaluated on the concrete `geo0`/`areaX` instance. -/
theorem endpoint_selector_amended_witness :
    ((179 ∈ angleCandidates) ↔ 179 ≤ 178) ∧
    distSq3 geo0 (251 / 25, 0) (499 / 50, 0) ≤
      ((9 / 2500 : ℚ), ((251 / 25 : ℚ), (0 : ℚ)),
        ((499 / 50 : ℚ), (0 : ℚ))).1 :=
  ⟨(endpoint_selector_amended geo0 areaX 3
      (9 / 2500, (251 / 25, 0), (499 / 50, 0)) bestChord_eval).1 179,
   (endpoint_selector_amended geo0 areaX 3
      (9 / 2500, (251 / 25, 0), (499 / 50, 0)) bestChord_eval).2.2.1 0
     (by simp [angleCandidates]) ((251 / 25, 0), (499 / 50, 0)) chordFor_eval⟩

/-- The per-area selection on the concrete instance: the comparison is
made against the accumulated `(20, 0)`, for which `bestPoint1` is the
closer endpoint. -/
theorem selectStartAndEnd_eval :
    selectStartAndEnd geo0 areaX (20, 0) 3 =
      some ((251 / 25, 0), (499 / 50, 0), -(3 / 50)) := by
  unfold selectStartAndEnd
  rw [bestChord_eval]
  norm_num [manhattanLength, abs_of_nonneg, geo0]

/-- C8 counterexample: on `areaX` (whose chord endpoints are
`(251/25, 0)` and `(499/50, 0)` and whose centre mean is `(10, 0)`),
the selector picks `(251/25, 0)` as start although the other endpoint
is strictly closer (Manhattan) to the mean of the area centres — the
comparison is made against the re-accumulated average, not the mean. -/
theorem startSelection_counterexample :
    buildStartAndEndPositions geo0 [areaX] 3 =
      some [((251 / 25, 0), (499 / 50, 0), -(3 / 50))] ∧
    (([areaX].map (fun a => a.centre.1)).sum /
        (([areaX] : List AreaData).length : ℚ),
     ([areaX].map (fun a => a.centre.2)).sum /
        (([areaX] : List AreaData).length : ℚ)) = ((10 : ℚ), (0 : ℚ)) ∧
    manhattanLength ((499 / 50 : ℚ) - 10, (0 : ℚ) - 0) <
      manhattanLength ((251 / 25 : ℚ) - 10, (0 : ℚ) - 0) := by
  refine ⟨?_, by norm_num [areaX],
    by norm_num [manhattanLength, abs_of_nonneg]⟩
  have hseed : buildStartAndEndPositions geo0 [areaX] 3 =
      buildLoop geo0 3 (10, 0) [areaX] := by
    unfold buildStartAndEndPositions
    norm_num [areaX]
  rw [hseed]
  rw [buildLoop]
  have hc : areaX.centre = (10, 0) := rfl
  norm_num [hc]
  rw [selectStartAndEnd_eval]
  rfl

/-- C8 amended: the accumulator is seeded with the mean of the per-task
area centres; each area's centre is then added *again* before its
comparison, and the start is whichever chord endpoint has the strictly
smaller Manhattan distance to that running accumulator (ties going to
`bestPoint2`), the other endpoint becoming the end, with stored
orientation `atan2(end.lat − start.lat, end.lon − start.lon)`. -/
theorem startSelection_amended (geo : Geo) (fuel : ℕ) (avg : ℚ × ℚ)
    (a : AreaData) (rest : List AreaData) (m : ℚ) (b1 b2 : ℚ × ℚ)
    (h : bestChord geo a fuel = some (m, b1, b2)) :
    buildLoop geo fuel avg (a :: rest) =
      (buildLoop geo fuel (avg.1 + a.centre.1, avg.2 + a.centre.2) rest).map
        (fun rs =>
          (if manhattanLength (b1.1 - (avg.1 + a.centre.1),
                b1.2 - (avg.2 + a.centre.2)) <
              manhattanLength (b2.1 - (avg.1 + a.centre.1),
                b2.2 - (avg.2 + a.centre.2)) then
            (b1, b2, geo.atan2 (b2.2 - b1.2) (b2.1 - b1.1))
          else
            (b2, b1, geo.atan2 (b1.2 - b2.2) (b1.1 - b2.1))) :: rs) ∧
    buildStartAndEndPositions geo (a :: rest) fuel =
      buildLoop geo fuel
        ((((a :: rest).map (fun x => x.centre.1)).sum /
            (((a :: rest) : List AreaData).length : ℚ)),
         (((a :: rest).map (fun x => x.centre.2)).sum /
            (((a :: rest) : List AreaData).length : ℚ)))
        (a :: rest) := by
  constructor
  · rw [buildLoop]
    unfold selectStartAndEnd
    rw [h]
    by_cases hcmp : manhattanLength (b1.1 - (avg.1 + a.centre.1),
        b1.2 - (avg.2 + a.centre.2)) <
        manhattanLength (b2.1 - (avg.1 + a.centre.1),
          b2.2 - (avg.2 + a.centre.2))
    · simp only [if_pos hcmp]
      cases hrec : buildLoop geo fuel (avg.1 + a.centre.1, avg.2 + a.centre.2)
          rest with
      | none => simp [hrec, hcmp]
      | some rs => simp [hrec, hcmp]
    · simp only [if_neg hcmp]
      cases hrec : buildLoop geo fuel (avg.1 + a.centre.1, avg.2 + a.centre.2)
          rest with
      | none => simp [hrec, hcmp]
      | some rs => simp [hrec, hcmp]
  · unfold buildStartAndEndPositions
    rw [if_pos (by simp)]

/-- Witness for `startSelection_amended` on the concrete
`geo0`/`areaX` instance. -/
theorem startSelection_amended_witness :
    buildLoop geo0 3 (10, 0) [areaX] =
      (buildLoop geo0 3 ((10 : ℚ) + areaX.centre.1, (0 : ℚ) + areaX.centre.2)
          []).map
        (fun rs =>
          (if manhattanLength ((251 / 25 : ℚ) - ((10 : ℚ) + areaX.centre.1),
                (0 : ℚ) - ((0 : ℚ) + areaX.centre.2)) <
              manhattanLength ((499 / 50 : ℚ) - ((10 : ℚ) + areaX.centre.1),
                (0 : ℚ) - ((0 : ℚ) + areaX.centre.2)) then
            ((251 / 25, 0), (499 / 50, 0),
              geo0.atan2 ((0 : ℚ) - 0) ((499 / 50 : ℚ) - 251 / 25))
          else
            ((499 / 50, 0), (251 / 25, 0),
              geo0.atan2 ((0 : ℚ) - 0) ((251 / 25 : ℚ) - 499 / 50))) :: rs) ∧
    buildStartAndEndPositions geo0 [areaX] 3 =
      buildLoop geo0 3
        ((([areaX].map (fun x => x.centre.1)).sum /
            (([areaX] : List AreaData).length : ℚ)),
         (([areaX].map (fun x => x.centre.2)).sum /
            (([areaX] : List AreaData).length : ℚ)))
        [areaX] :=
  startSelection_amended geo0 3 (10, 0) areaX [] (9 / 2500)
    (251 / 25, 0) (499 / 50, 0) bestChord_eval

/-- Witness for `interpolate_failure_writes_nothing`: a failing call on
an empty list leaves the outputs untouched. -/
theorem interpolate_failure_writes_nothing_witness :
    interpolatePathC geo0 true true [] 0 0 (5, 5) 7 = (false, (5, 5), 7) := by
  have h := interpolate_failure_writes_nothing geo0 true true [] 0 0 (5, 5) 7
  have hfail : (interpolatePathC geo0 true true [] 0 0 (5, 5) 7).1 = false :=
    h.1.mpr (Or.inr (Or.inr (Or.inr rfl)))
  have hold := h.2 hfail
  have : interpolatePathC geo0 true true [] 0 0 (5, 5) 7 =
      ((interpolatePathC geo0 true true [] 0 0 (5, 5) 7).1,
       (interpolatePathC geo0 true true [] 0 0 (5, 5) 7).2) := rfl
  rw [this, hfail, hold]

end FlightPlanner
